import Mathlib

/-!
Verification of the core of `onelint` (package `pkg/one`): language/grammar
resolution and the parse pipeline (`language.go`), and the rule-dispatch
analyzer with issue collection (`analyze.go`).

The two Go source files are embedded shallowly below.  External collaborators
(the tree-sitter parsing engine, `os.ReadFile`) are abstracted as explicit
function parameters.  Repository code that is referenced but not part of the
visible source (the `Rule` interface, the traversal engine `WalkTree`, the
scope resolver `MakeScopeTree` and its `ScopeTree` type) is modelled from the
spec, each marked `Modelled from the spec:` in its doc comment.
-/

namespace One

/-! ## Syntax tree nodes

A tree-sitter node, as far as this package observes it, is a typed rose
tree: `node.Type()` returns the node's type string and traversal visits the
children in order.  The children list is a mutually defined list type so that
all functions over trees are structurally recursive. -/

mutual

/-- A tree-sitter syntax node: a type string plus an ordered list of
children (the view of `*sitter.Node` that this package uses). -/
inductive TSNode where
  | mk (typ : String) (children : TSNodeList)

/-- An ordered list of sibling syntax nodes. -/
inductive TSNodeList where
  | nil
  | cons (head : TSNode) (tail : TSNodeList)

end

/-- `node.Type()` of a tree-sitter node. -/
def TSNode.typ : TSNode → String
  | .mk t _ => t

/-- The children of a node. -/
def TSNode.children : TSNode → TSNodeList
  | .mk _ c => c

mutual

/-- Number of nodes with the given type string in the tree. -/
def countNodesOfType (typ : String) : TSNode → Nat
  | .mk t children => (if t = typ then 1 else 0) + countNodesOfTypeList typ children

/-- Number of nodes with the given type string in a list of subtrees. -/
def countNodesOfTypeList (typ : String) : TSNodeList → Nat
  | .nil => 0
  | .cons h tl => countNodesOfType typ h + countNodesOfTypeList typ tl

end

/-! ## `language.go`: languages and grammars -/

/-- `type Language int` with its constants (`language.go`). -/
inductive Language where
  | LangUnknown
  | LangPy
  | LangJs  -- vanilla JS and JSX
  | LangTs  -- TypeScript (not TSX)
  | LangTsx -- TypeScript with JSX extension
  deriving DecidableEq

export Language (LangUnknown LangPy LangJs LangTs LangTsx)

/-- The grammar handles provided by the external `go-tree-sitter` bindings
that `language.go` imports: `treeSitterPy.GetLanguage()`,
`treeSitterTs.GetLanguage()` and `treeSitterTsx.GetLanguage()` are three
distinct, stable `*sitter.Language` values. -/
inductive SitterGrammar where
  | python
  | typescript
  | tsx
  deriving DecidableEq

/-- `func (lang Language) Grammar() *sitter.Language` (`language.go`).
Returns `none` for the `nil` pointer of the `default` branch. -/
def Language.Grammar : Language → Option SitterGrammar
  | LangPy => some .python
  | LangJs => some .tsx
  | LangTs => some .typescript
  | LangTsx => some .tsx
  | LangUnknown => none

/-- `filepath.Ext` of the Go standard library: the suffix beginning at the
final dot in the final slash-separated element of the path; empty if there
is no dot.  The Go loop scans backwards from the end, stopping at a path
separator; here the scan is over the reversed character list, `acc` holding
the suffix seen so far. -/
def filepathExt (path : String) : String :=
  go path.data.reverse []
where
  go : List Char → List Char → String
    | [], _ => ""
    | c :: rest, acc =>
      if c = '/' then ""
      else if c = '.' then String.mk (c :: acc)
      else go rest (c :: acc)

/-- `func LanguageFromFilePath(path string) Language` (`language.go`): switch
on `filepath.Ext(path)`; the Go case `".js", ".jsx"` becomes two branches
with the same result. -/
def LanguageFromFilePath (path : String) : Language :=
  let ext := filepathExt path
  if ext = ".py" then LangPy
  else if ext = ".js" then LangJs
  else if ext = ".jsx" then LangJs
  else if ext = ".ts" then LangTs
  else if ext = ".tsx" then LangTsx
  else LangUnknown

/-- Follows the spec's words (§4.1, §8), for comparison with
`LanguageFromFilePath`: the fixed extension mapping
{.py→Python, .js→JavaScript, .jsx→JavaScript, .ts→TypeScript,
.tsx→TypeScript+JSX}, anything else → Unknown. -/
def specResolveLanguage (ext : String) : Language :=
  if ext = ".py" then LangPy
  else if ext = ".js" then LangJs
  else if ext = ".jsx" then LangJs
  else if ext = ".ts" then LangTs
  else if ext = ".tsx" then LangTsx
  else LangUnknown

/-! ## `language.go`: the parse pipeline -/

/-- Modelled from the spec: `ScopeTree` (§3) "represents the scope hierarchy
of the file", produced by the external Scope Resolver, read-only and opaque
to the Analyzer; its file is not under `src/`, and no claim inspects its
contents, so it is modelled as an abstract token. -/
structure ScopeTree where
  unit : Unit

/-- The error values the pipeline can return (`language.go`):
`fmt.Errorf("unsupported file type: %s", filePath)`,
`fmt.Errorf("failed to parse %s", filePath)`, and the error returned
unchanged from `os.ReadFile`. -/
inductive GoError where
  | unsupportedFileType (filePath : String)
  | parseFailed (filePath : String)
  | ioError (msg : String)
  deriving DecidableEq

/-- `ParseResult` (`language.go`).  Source bytes are a list of byte values. -/
structure ParseResult where
  Ast : TSNode
  Source : List Nat
  FilePath : String
  TsLanguage : SitterGrammar
  Language : Language
  ScopeTree : Option ScopeTree

section ParsePipeline

/- The external parsing engine `sitter.ParseCtx(context.Background(), source,
grammar)`: returns a tree root or an error (its message is irrelevant here).
It is an import, not repository code, so the pipeline is parameterized
over it. -/
variable (ParseCtx : List Nat → SitterGrammar → Except String TSNode)

/- Modelled from the spec: `MakeScopeTree` (the Scope Resolver, §2/§6
`buildScopeTree(language, syntaxTreeRoot, source) -> ScopeTree | absent`)
is repository code whose file is not under `src/`; only its signature is
specified, so the pipeline is parameterized over it. -/
variable (MakeScopeTree : Language → TSNode → List Nat → Option ScopeTree)

/- `os.ReadFile`: external file I/O, parameterized; an `Except.error` is the
`err != nil` case. -/
variable (ReadFile : String → Except String (List Nat))

/-- `func Parse(filePath string, source []byte, language Language,
grammar *sitter.Language) (*ParseResult, error)` (`language.go`). -/
def Parse (filePath : String) (source : List Nat) (language : Language)
    (grammar : SitterGrammar) : Except GoError ParseResult :=
  match ParseCtx source grammar with
  | .error _ => .error (.parseFailed filePath)
  | .ok ast =>
    let scopeTree := MakeScopeTree language ast source
    .ok { Ast := ast
          Source := source
          FilePath := filePath
          TsLanguage := grammar
          Language := language
          ScopeTree := scopeTree }

/-- `func ParseFile(filePath string) (*ParseResult, error)` (`language.go`):
grammar lookup (failing before any read), then the file read, then `Parse`. -/
def ParseFile (filePath : String) : Except GoError ParseResult :=
  let lang := LanguageFromFilePath filePath
  match lang.Grammar with
  | none => .error (.unsupportedFileType filePath)
  | some grammar =>
    match ReadFile filePath with
    | .error e => .error (.ioError e)
    | .ok source => Parse ParseCtx MakeScopeTree filePath source lang grammar

end ParsePipeline

/-! ## `analyze.go`: issues, rules and the Analyzer -/

/-- A position in the source, as in `sitter.Point` (row/column). -/
structure SitterPoint where
  Row : Nat
  Column : Nat

/-- A source range, as in `sitter.Range` (start/end point, start/end byte). -/
structure SitterRange where
  StartPoint : SitterPoint
  EndPoint : SitterPoint
  StartByte : Nat
  EndByte : Nat

/-- `type Issue struct` (`analyze.go`): message, range, optional node. -/
structure Issue where
  Message : String
  Range : SitterRange
  Node : Option TSNode

/-- Modelled from the spec: the data of a rule other than its callbacks —
its declared node type (§9 capability record) plus a name standing for the
identity of the rule value, so that the ghost trace below can speak about
which rule a callback invocation belongs to.  The `Rule` interface's file is
not under `src/`. -/
structure RuleData where
  name : String
  nodeType : String

/-- Modelled from the spec: a rule callback.  In the source a callback
receives `(rule, analyzer, node)` and interacts with the Analyzer only
through `Report` (§4.3: "rule callbacks have no error channel"; §9 forbids
registry mutation mid-traversal), so it is modelled as a pure function of
the rule's data, the analyzer's (read-only) ParseResult and the node,
returning the list of issues it Reports, in the order it Reports them. -/
def VisitFn : Type :=
  RuleData → ParseResult → TSNode → List Issue

/-- Modelled from the spec: the `Rule` interface (§3, §9): a declared node
type and two optional callbacks, either of which may be absent (`nil`). -/
structure Rule where
  data : RuleData
  onEnter : Option VisitFn
  onLeave : Option VisitFn

/-- `rule.NodeType()`. -/
def Rule.NodeType (r : Rule) : String :=
  r.data.nodeType

/-- `rule.OnEnter()`: the optional on-enter callback (`nil` = `none`). -/
def Rule.OnEnter (r : Rule) : Option VisitFn :=
  r.onEnter

/-- `rule.OnLeave()`: the optional on-exit callback (`nil` = `none`). -/
def Rule.OnLeave (r : Rule) : Option VisitFn :=
  r.onLeave

/-- `type Analyzer struct` (`analyze.go`).  The Go maps
`map[string][]Rule` are modelled as total functions from node-type strings
to rule lists, a missing key being the empty (nil) slice. -/
structure Analyzer where
  Language : Language
  ParseResult : ParseResult
  rules : List Rule
  entryRulesForNode : String → List Rule
  exitRulesForNode : String → List Rule
  issuesRaised : List Issue

/-- `func (ana *Analyzer) AddRule(rule Rule)` (`analyze.go`): append to
`rules`; if the on-enter callback is non-nil, append the rule to the entry
bucket for `rule.NodeType()`; likewise for on-exit and the exit bucket. -/
def Analyzer.AddRule (ana : Analyzer) (rule : Rule) : Analyzer :=
  let ana := { ana with rules := ana.rules ++ [rule] }
  let typ := rule.NodeType
  let ana :=
    if rule.OnEnter.isSome then
      { ana with entryRulesForNode :=
          fun t => if t = typ then ana.entryRulesForNode t ++ [rule]
                   else ana.entryRulesForNode t }
    else ana
  if rule.OnLeave.isSome then
    { ana with exitRulesForNode :=
        fun t => if t = typ then ana.exitRulesForNode t ++ [rule]
                 else ana.exitRulesForNode t }
  else ana

/-- `func NewAnalyzer(file *ParseResult, rules []Rule) *Analyzer`
(`analyze.go`): fresh empty indices, then `AddRule` for each rule in
order. -/
def NewAnalyzer (file : ParseResult) (rules : List Rule) : Analyzer :=
  let ana : Analyzer :=
    { Language := file.Language
      ParseResult := file
      rules := []
      entryRulesForNode := fun _ => []
      exitRulesForNode := fun _ => []
      issuesRaised := [] }
  rules.foldl Analyzer.AddRule ana

/-- `func (ana *Analyzer) Report(issue *Issue)` (`analyze.go`): append the
issue to `issuesRaised`. -/
def Analyzer.Report (ana : Analyzer) (issue : Issue) : Analyzer :=
  { ana with issuesRaised := ana.issuesRaised ++ [issue] }

/-- Traversal phase of a callback invocation (ghost, for the trace). -/
inductive Phase where
  | enter
  | leave
  deriving DecidableEq

/-- Ghost record of one callback invocation `(*visitFn)(rule, ana, node)`:
which rule, at which phase, on which node, and the issues the callback
reported during the invocation.  Purely instrumentation — it does not feed
back into the analyzer state. -/
structure VisitEvent where
  ruleName : String
  phase : Phase
  node : TSNode
  reported : List Issue

/-- One iteration of the dispatch loop in `OnEnterNode`: if the rule's
callback is non-nil, invoke it (its reported issues are appended via
`Report`) and record the ghost event; otherwise do nothing. -/
def enterStep (node : TSNode) (acc : Analyzer × List VisitEvent) (rule : Rule) :
    Analyzer × List VisitEvent :=
  match rule.OnEnter with
  | some visitFn =>
    let issues := visitFn rule.data acc.1.ParseResult node
    (issues.foldl Analyzer.Report acc.1,
      acc.2 ++ [⟨rule.data.name, Phase.enter, node, issues⟩])
  | none => acc

/-- One iteration of the dispatch loop in `OnLeaveNode`. -/
def leaveStep (node : TSNode) (acc : Analyzer × List VisitEvent) (rule : Rule) :
    Analyzer × List VisitEvent :=
  match rule.OnLeave with
  | some visitFn =>
    let issues := visitFn rule.data acc.1.ParseResult node
    (issues.foldl Analyzer.Report acc.1,
      acc.2 ++ [⟨rule.data.name, Phase.leave, node, issues⟩])
  | none => acc

/-- `func (ana *Analyzer) OnEnterNode(node *sitter.Node) bool`
(`analyze.go`): look up the entry bucket for `node.Type()`, run every rule's
non-nil callback in bucket order, return `true`.  The middle component is
the ghost event trace. -/
def Analyzer.OnEnterNode (ana : Analyzer) (node : TSNode) :
    Analyzer × List VisitEvent × Bool :=
  let nodeType := node.typ
  let rules := ana.entryRulesForNode nodeType
  let res := rules.foldl (enterStep node) (ana, [])
  (res.1, res.2, true)

/-- `func (ana *Analyzer) OnLeaveNode(node *sitter.Node)` (`analyze.go`):
the symmetric dispatch against the exit bucket. -/
def Analyzer.OnLeaveNode (ana : Analyzer) (node : TSNode) :
    Analyzer × List VisitEvent :=
  let nodeType := node.typ
  let rules := ana.exitRulesForNode nodeType
  rules.foldl (leaveStep node) (ana, [])

mutual

/-- Modelled from the spec: `WalkTree` (the Traversal Engine, §4.4), whose
file is not under `src/`: pre-order call to `OnEnterNode`, descent into the
children left to right when it returns `true`, then the post-order call to
`OnLeaveNode`.  Also returns the concatenated ghost trace. -/
def WalkTree (node : TSNode) (ana : Analyzer) : Analyzer × List VisitEvent :=
  match node with
  | .mk typ children =>
    match ana.OnEnterNode (.mk typ children) with
    | (ana₁, evs₁, descend) =>
      match if descend then walkNodeList children ana₁ else (ana₁, []) with
      | (ana₂, evs₂) =>
        match ana₂.OnLeaveNode (.mk typ children) with
        | (ana₃, evs₃) => (ana₃, evs₁ ++ evs₂ ++ evs₃)

/-- Walk a list of sibling subtrees left to right. -/
def walkNodeList (nodes : TSNodeList) (ana : Analyzer) : Analyzer × List VisitEvent :=
  match nodes with
  | .nil => (ana, [])
  | .cons h tl =>
    match WalkTree h ana with
    | (ana₁, evs₁) =>
      match walkNodeList tl ana₁ with
      | (ana₂, evs₂) => (ana₂, evs₁ ++ evs₂)

end

/-- `func (ana *Analyzer) Analyze() []*Issue` (`analyze.go`): walk the bound
tree, return `issuesRaised`. -/
def Analyzer.Analyze (ana : Analyzer) : List Issue :=
  (WalkTree ana.ParseResult.Ast ana).1.issuesRaised

/-- The ghost trace of one full `Analyze()` run. -/
def Analyzer.analyzeTrace (ana : Analyzer) : List VisitEvent :=
  (WalkTree ana.ParseResult.Ast ana).2

/-- `func FromFile(filePath string, baseRules []Rule) (*Analyzer, error)`
(`analyze.go`): `ParseFile`, propagating its error, then `NewAnalyzer`. -/
def FromFile (ParseCtx : List Nat → SitterGrammar → Except String TSNode)
    (MakeScopeTree : Language → TSNode → List Nat → Option ScopeTree)
    (ReadFile : String → Except String (List Nat))
    (filePath : String) (baseRules : List Rule) : Except GoError Analyzer :=
  match ParseFile ParseCtx MakeScopeTree ReadFile filePath with
  | .error e => .error e
  | .ok res => .ok (NewAnalyzer res baseRules)

/-! ## Pure characterization of dispatch and traversal

The stateful walk above is characterized by a pure trace function: the list
of callback invocations it performs, from which the issue list follows. -/

/-- The events produced by dispatching one bucket at one node, in bucket
order: one event per rule whose callback is non-nil. -/
def enterEvents (pr : ParseResult) (bucket : List Rule) (node : TSNode) :
    List VisitEvent :=
  bucket.filterMap (fun rule =>
    match rule.OnEnter with
    | some visitFn => some ⟨rule.data.name, Phase.enter, node, visitFn rule.data pr node⟩
    | none => none)

/-- The events produced by dispatching one exit bucket at one node. -/
def leaveEvents (pr : ParseResult) (bucket : List Rule) (node : TSNode) :
    List VisitEvent :=
  bucket.filterMap (fun rule =>
    match rule.OnLeave with
    | some visitFn => some ⟨rule.data.name, Phase.leave, node, visitFn rule.data pr node⟩
    | none => none)

/-- All issues reported across a list of invocation events, in event order,
each event's issues in the order its callback reported them. -/
def reportedIssues : List VisitEvent → List Issue
  | [] => []
  | e :: rest => e.reported ++ reportedIssues rest

theorem reportedIssues_append (l₁ l₂ : List VisitEvent) :
    reportedIssues (l₁ ++ l₂) = reportedIssues l₁ ++ reportedIssues l₂ := by
  induction l₁ with
  | nil => simp [reportedIssues]
  | cons e rest ih => simp [reportedIssues, ih]

mutual

/-- The full ghost trace of walking a tree: per node, the entry-bucket
events, then the children's traces left to right, then the exit-bucket
events. -/
def treeTrace (pr : ParseResult) (entryIdx exitIdx : String → List Rule) :
    TSNode → List VisitEvent
  | .mk typ children =>
    enterEvents pr (entryIdx typ) (.mk typ children)
      ++ listTrace pr entryIdx exitIdx children
      ++ leaveEvents pr (exitIdx typ) (.mk typ children)

/-- The trace of walking a list of sibling subtrees. -/
def listTrace (pr : ParseResult) (entryIdx exitIdx : String → List Rule) :
    TSNodeList → List VisitEvent
  | .nil => []
  | .cons h tl =>
    treeTrace pr entryIdx exitIdx h ++ listTrace pr entryIdx exitIdx tl

end

theorem foldl_report (issues : List Issue) (ana : Analyzer) :
    issues.foldl Analyzer.Report ana
      = { ana with issuesRaised := ana.issuesRaised ++ issues } := by
  induction issues generalizing ana with
  | nil => simp
  | cons i is ih => simp [Analyzer.Report, ih]

theorem enterFold_spec (node : TSNode) (bucket : List Rule) (a : Analyzer)
    (evs : List VisitEvent) :
    bucket.foldl (enterStep node) (a, evs)
      = ({ a with issuesRaised :=
             a.issuesRaised ++ reportedIssues (enterEvents a.ParseResult bucket node) },
         evs ++ enterEvents a.ParseResult bucket node) := by
  induction bucket generalizing a evs with
  | nil => simp [enterEvents, reportedIssues]
  | cons r rs ih =>
    cases hr : r.OnEnter with
    | none =>
      simp only [List.foldl_cons, enterStep, hr, enterEvents, List.filterMap_cons]
      exact ih a evs
    | some visitFn =>
      simp only [List.foldl_cons, enterStep, hr, enterEvents, List.filterMap_cons,
        foldl_report, ih, reportedIssues]
      simp [enterEvents]

theorem leaveFold_spec (node : TSNode) (bucket : List Rule) (a : Analyzer)
    (evs : List VisitEvent) :
    bucket.foldl (leaveStep node) (a, evs)
      = ({ a with issuesRaised :=
             a.issuesRaised ++ reportedIssues (leaveEvents a.ParseResult bucket node) },
         evs ++ leaveEvents a.ParseResult bucket node) := by
  induction bucket generalizing a evs with
  | nil => simp [leaveEvents, reportedIssues]
  | cons r rs ih =>
    cases hr : r.OnLeave with
    | none =>
      simp only [List.foldl_cons, leaveStep, hr, leaveEvents, List.filterMap_cons]
      exact ih a evs
    | some visitFn =>
      simp only [List.foldl_cons, leaveStep, hr, leaveEvents, List.filterMap_cons,
        foldl_report, ih, reportedIssues]
      simp [leaveEvents]

theorem OnEnterNode_spec (ana : Analyzer) (node : TSNode) :
    ana.OnEnterNode node
      = ({ ana with issuesRaised :=
             ana.issuesRaised ++ reportedIssues (enterEvents ana.ParseResult (ana.entryRulesForNode node.typ) node) },
         enterEvents ana.ParseResult (ana.entryRulesForNode node.typ) node, true) := by
  simp [Analyzer.OnEnterNode, enterFold_spec]

theorem OnLeaveNode_spec (ana : Analyzer) (node : TSNode) :
    ana.OnLeaveNode node
      = ({ ana with issuesRaised :=
             ana.issuesRaised ++ reportedIssues (leaveEvents ana.ParseResult (ana.exitRulesForNode node.typ) node) },
         leaveEvents ana.ParseResult (ana.exitRulesForNode node.typ) node) := by
  simp [Analyzer.OnLeaveNode, leaveFold_spec]

mutual

/-- The stateful walk equals: append the reported issues of the pure trace,
and return that trace.  In particular the walk never changes the rule
indices, the `rules` list, the bound ParseResult or the Language. -/
theorem WalkTree_spec (node : TSNode) : ∀ ana : Analyzer,
    WalkTree node ana
      = ({ ana with issuesRaised :=
             ana.issuesRaised ++ reportedIssues (treeTrace ana.ParseResult ana.entryRulesForNode ana.exitRulesForNode node) },
         treeTrace ana.ParseResult ana.entryRulesForNode ana.exitRulesForNode node) := by
  intro ana
  match node with
  | .mk typ children =>
    simp only [WalkTree, OnEnterNode_spec, if_pos, walkNodeList_spec children,
      OnLeaveNode_spec, treeTrace]
    simp [reportedIssues_append, TSNode.typ]

/-- List version of `WalkTree_spec`. -/
theorem walkNodeList_spec (nodes : TSNodeList) : ∀ ana : Analyzer,
    walkNodeList nodes ana
      = ({ ana with issuesRaised :=
             ana.issuesRaised ++ reportedIssues (listTrace ana.ParseResult ana.entryRulesForNode ana.exitRulesForNode nodes) },
         listTrace ana.ParseResult ana.entryRulesForNode ana.exitRulesForNode nodes) := by
  intro ana
  match nodes with
  | .nil => simp [walkNodeList, listTrace, reportedIssues]
  | .cons h tl =>
    simp only [walkNodeList, WalkTree_spec h, walkNodeList_spec tl, listTrace]
    simp [reportedIssues_append]

end

/-! ## Characterization of the rule indices -/

theorem AddRule_entryRules (ana : Analyzer) (r : Rule) (typ : String) :
    (ana.AddRule r).entryRulesForNode typ
      = if r.OnEnter.isSome ∧ typ = r.NodeType
        then ana.entryRulesForNode typ ++ [r]
        else ana.entryRulesForNode typ := by
  simp only [Analyzer.AddRule]
  by_cases h1 : r.OnEnter.isSome <;> by_cases h2 : r.OnLeave.isSome <;>
    by_cases h3 : typ = r.NodeType <;> simp [h1, h2, h3]

theorem AddRule_exitRules (ana : Analyzer) (r : Rule) (typ : String) :
    (ana.AddRule r).exitRulesForNode typ
      = if r.OnLeave.isSome ∧ typ = r.NodeType
        then ana.exitRulesForNode typ ++ [r]
        else ana.exitRulesForNode typ := by
  simp only [Analyzer.AddRule]
  by_cases h1 : r.OnEnter.isSome <;> by_cases h2 : r.OnLeave.isSome <;>
    by_cases h3 : typ = r.NodeType <;> simp [h1, h2, h3]

theorem AddRule_rules (ana : Analyzer) (r : Rule) :
    (ana.AddRule r).rules = ana.rules ++ [r] := by
  simp only [Analyzer.AddRule]
  by_cases h1 : r.OnEnter.isSome <;> by_cases h2 : r.OnLeave.isSome <;> simp [h1, h2]

theorem AddRule_ParseResult (ana : Analyzer) (r : Rule) :
    (ana.AddRule r).ParseResult = ana.ParseResult := by
  simp only [Analyzer.AddRule]
  by_cases h1 : r.OnEnter.isSome <;> by_cases h2 : r.OnLeave.isSome <;> simp [h1, h2]

theorem AddRule_issuesRaised (ana : Analyzer) (r : Rule) :
    (ana.AddRule r).issuesRaised = ana.issuesRaised := by
  simp only [Analyzer.AddRule]
  by_cases h1 : r.OnEnter.isSome <;> by_cases h2 : r.OnLeave.isSome <;> simp [h1, h2]

/-- The predicate deciding membership of a rule in the entry bucket for
`typ`: a non-nil on-enter callback and the matching declared node type. -/
def entryPred (typ : String) (r : Rule) : Bool :=
  r.OnEnter.isSome && decide (typ = r.NodeType)

/-- The predicate deciding membership in the exit bucket for `typ`. -/
def exitPred (typ : String) (r : Rule) : Bool :=
  r.OnLeave.isSome && decide (typ = r.NodeType)

theorem foldl_AddRule_entryRules (rules : List Rule) (ana : Analyzer) (typ : String) :
    (rules.foldl Analyzer.AddRule ana).entryRulesForNode typ
      = ana.entryRulesForNode typ ++ rules.filter (entryPred typ) := by
  induction rules generalizing ana with
  | nil => simp
  | cons r rs ih =>
    simp only [List.foldl_cons, ih, AddRule_entryRules, List.filter_cons, entryPred]
    by_cases h1 : r.OnEnter.isSome <;> by_cases h3 : typ = r.NodeType <;>
      simp [h1, h3, entryPred]

theorem foldl_AddRule_exitRules (rules : List Rule) (ana : Analyzer) (typ : String) :
    (rules.foldl Analyzer.AddRule ana).exitRulesForNode typ
      = ana.exitRulesForNode typ ++ rules.filter (exitPred typ) := by
  induction rules generalizing ana with
  | nil => simp
  | cons r rs ih =>
    simp only [List.foldl_cons, ih, AddRule_exitRules, List.filter_cons, exitPred]
    by_cases h1 : r.OnLeave.isSome <;> by_cases h3 : typ = r.NodeType <;>
      simp [h1, h3, exitPred]

theorem foldl_AddRule_rules (rules : List Rule) (ana : Analyzer) :
    (rules.foldl Analyzer.AddRule ana).rules = ana.rules ++ rules := by
  induction rules generalizing ana with
  | nil => simp
  | cons r rs ih => simp [List.foldl_cons, ih, AddRule_rules]

theorem foldl_AddRule_ParseResult (rules : List Rule) (ana : Analyzer) :
    (rules.foldl Analyzer.AddRule ana).ParseResult = ana.ParseResult := by
  induction rules generalizing ana with
  | nil => rfl
  | cons r rs ih => simp [List.foldl_cons, ih, AddRule_ParseResult]

theorem foldl_AddRule_issuesRaised (rules : List Rule) (ana : Analyzer) :
    (rules.foldl Analyzer.AddRule ana).issuesRaised = ana.issuesRaised := by
  induction rules generalizing ana with
  | nil => rfl
  | cons r rs ih => simp [List.foldl_cons, ih, AddRule_issuesRaised]

theorem NewAnalyzer_entryRules (pr : ParseResult) (rules : List Rule) (typ : String) :
    (NewAnalyzer pr rules).entryRulesForNode typ = rules.filter (entryPred typ) := by
  simp [NewAnalyzer, foldl_AddRule_entryRules]

theorem NewAnalyzer_exitRules (pr : ParseResult) (rules : List Rule) (typ : String) :
    (NewAnalyzer pr rules).exitRulesForNode typ = rules.filter (exitPred typ) := by
  simp [NewAnalyzer, foldl_AddRule_exitRules]

theorem NewAnalyzer_rules (pr : ParseResult) (rules : List Rule) :
    (NewAnalyzer pr rules).rules = rules := by
  simp [NewAnalyzer, foldl_AddRule_rules]

theorem NewAnalyzer_ParseResult (pr : ParseResult) (rules : List Rule) :
    (NewAnalyzer pr rules).ParseResult = pr := by
  simp [NewAnalyzer, foldl_AddRule_ParseResult]

theorem NewAnalyzer_issuesRaised (pr : ParseResult) (rules : List Rule) :
    (NewAnalyzer pr rules).issuesRaised = [] := by
  simp [NewAnalyzer, foldl_AddRule_issuesRaised]

/-- `Analyze()` in terms of the pure trace: the returned list is the issues
already raised followed by everything reported during the walk, in
invocation order. -/
theorem Analyze_spec (ana : Analyzer) :
    ana.Analyze = ana.issuesRaised ++ reportedIssues ana.analyzeTrace := by
  simp [Analyzer.Analyze, Analyzer.analyzeTrace, WalkTree_spec]

/-- The ghost trace of `Analyze()` is the pure trace of the bound tree under
the analyzer's two indices. -/
theorem analyzeTrace_spec (ana : Analyzer) :
    ana.analyzeTrace
      = treeTrace ana.ParseResult ana.entryRulesForNode ana.exitRulesForNode
          ana.ParseResult.Ast := by
  simp [Analyzer.analyzeTrace, WalkTree_spec]

/-! ## Properties of the event trace -/

theorem mem_enterEvents {pr : ParseResult} {bucket : List Rule} {node : TSNode}
    {e : VisitEvent} (h : e ∈ enterEvents pr bucket node) :
    e.phase = Phase.enter ∧ e.node = node
      ∧ ∃ r ∈ bucket, r.OnEnter.isSome ∧ e.ruleName = r.data.name := by
  simp only [enterEvents, List.mem_filterMap] at h
  obtain ⟨r, hr, hfr⟩ := h
  cases hf : r.OnEnter with
  | none => rw [hf] at hfr; simp at hfr
  | some visitFn =>
    rw [hf] at hfr
    simp only [Option.some.injEq] at hfr
    subst hfr
    exact ⟨rfl, rfl, r, hr, by simp [hf], rfl⟩

theorem mem_leaveEvents {pr : ParseResult} {bucket : List Rule} {node : TSNode}
    {e : VisitEvent} (h : e ∈ leaveEvents pr bucket node) :
    e.phase = Phase.leave ∧ e.node = node
      ∧ ∃ r ∈ bucket, r.OnLeave.isSome ∧ e.ruleName = r.data.name := by
  simp only [leaveEvents, List.mem_filterMap] at h
  obtain ⟨r, hr, hfr⟩ := h
  cases hf : r.OnLeave with
  | none => rw [hf] at hfr; simp at hfr
  | some visitFn =>
    rw [hf] at hfr
    simp only [Option.some.injEq] at hfr
    subst hfr
    exact ⟨rfl, rfl, r, hr, by simp [hf], rfl⟩

theorem enterEvents_length (pr : ParseResult) (node : TSNode) :
    ∀ bucket : List Rule, (∀ r ∈ bucket, r.OnEnter.isSome) →
      (enterEvents pr bucket node).length = bucket.length := by
  intro bucket
  induction bucket with
  | nil => intro _; rfl
  | cons r rs ih =>
    intro h
    have hr := h r (by simp)
    obtain ⟨visitFn, hf⟩ := Option.isSome_iff_exists.mp hr
    simp only [enterEvents, List.filterMap_cons, hf]
    simp only [enterEvents] at ih
    simp [ih fun r' hr' => h r' (by simp [hr'])]

theorem leaveEvents_length (pr : ParseResult) (node : TSNode) :
    ∀ bucket : List Rule, (∀ r ∈ bucket, r.OnLeave.isSome) →
      (leaveEvents pr bucket node).length = bucket.length := by
  intro bucket
  induction bucket with
  | nil => intro _; rfl
  | cons r rs ih =>
    intro h
    have hr := h r (by simp)
    obtain ⟨visitFn, hf⟩ := Option.isSome_iff_exists.mp hr
    simp only [leaveEvents, List.filterMap_cons, hf]
    simp only [leaveEvents] at ih
    simp [ih fun r' hr' => h r' (by simp [hr'])]

/-- Restricting the enter events of one bucket to one rule name selects the
events of the name-restricted bucket. -/
theorem enterEvents_filter_name (pr : ParseResult) (node : TSNode) (N : String) :
    ∀ bucket : List Rule,
      (enterEvents pr bucket node).filter
          (fun e => decide (e.phase = Phase.enter ∧ e.ruleName = N))
        = enterEvents pr (bucket.filter (fun r => decide (r.data.name = N))) node := by
  intro bucket
  induction bucket with
  | nil => rfl
  | cons r rs ih =>
    simp only [enterEvents] at ih ⊢
    simp only [Bool.decide_and] at ih ⊢
    by_cases hn : r.data.name = N <;>
      cases hf : r.OnEnter <;>
        simp [List.filterMap_cons, List.filter_cons, hf, hn, ih]

/-- Exit-bucket events never pass an enter-phase filter. -/
theorem leaveEvents_filter_enter (pr : ParseResult) (node : TSNode) (N : String) :
    ∀ bucket : List Rule,
      (leaveEvents pr bucket node).filter
          (fun e => decide (e.phase = Phase.enter ∧ e.ruleName = N)) = [] := by
  intro bucket
  induction bucket with
  | nil => rfl
  | cons r rs ih =>
    simp only [leaveEvents] at ih ⊢
    simp only [Bool.decide_and] at ih ⊢
    cases hf : r.OnLeave <;>
      simp [List.filterMap_cons, List.filter_cons, hf, ih]

/-- If the rules named like `R` in the registration list are exactly `[R]`,
then the rules named like `R` in the entry bucket for `typ` are exactly
`[R]` when `typ` is `R`'s declared node type, and none otherwise. -/
theorem bucket_filter_name (rules : List Rule) (R : Rule)
    (hfilter : rules.filter (fun r => decide (r.data.name = R.data.name)) = [R])
    (hR : R.OnEnter.isSome) (typ : String) :
    (rules.filter (entryPred typ)).filter
        (fun r => decide (r.data.name = R.data.name))
      = if typ = R.NodeType then [R] else [] := by
  rw [List.filter_comm, hfilter]
  by_cases ht : typ = R.NodeType <;> simp [entryPred, hR, ht]

mutual

/-- Every callback invocation in the trace comes from a rule of the
corresponding bucket for the visited node's type, with a non-nil callback
of the corresponding phase. -/
theorem mem_treeTrace (pr : ParseResult) (entryIdx exitIdx : String → List Rule) :
    ∀ t : TSNode, ∀ e ∈ treeTrace pr entryIdx exitIdx t,
      (e.phase = Phase.enter
          ∧ ∃ r ∈ entryIdx e.node.typ, r.OnEnter.isSome ∧ e.ruleName = r.data.name)
        ∨ (e.phase = Phase.leave
          ∧ ∃ r ∈ exitIdx e.node.typ, r.OnLeave.isSome ∧ e.ruleName = r.data.name) := by
  intro t e he
  match t with
  | .mk typ children =>
    simp only [treeTrace, List.mem_append] at he
    rcases he with (he | he) | he
    · obtain ⟨hp, hn, hr⟩ := mem_enterEvents he
      exact Or.inl ⟨hp, by rw [hn]; exact hr⟩
    · exact mem_listTrace pr entryIdx exitIdx children e he
    · obtain ⟨hp, hn, hr⟩ := mem_leaveEvents he
      exact Or.inr ⟨hp, by rw [hn]; exact hr⟩

/-- List version of `mem_treeTrace`. -/
theorem mem_listTrace (pr : ParseResult) (entryIdx exitIdx : String → List Rule) :
    ∀ l : TSNodeList, ∀ e ∈ listTrace pr entryIdx exitIdx l,
      (e.phase = Phase.enter
          ∧ ∃ r ∈ entryIdx e.node.typ, r.OnEnter.isSome ∧ e.ruleName = r.data.name)
        ∨ (e.phase = Phase.leave
          ∧ ∃ r ∈ exitIdx e.node.typ, r.OnLeave.isSome ∧ e.ruleName = r.data.name) := by
  intro l e he
  match l with
  | .nil => simp [listTrace] at he
  | .cons h tl =>
    simp only [listTrace, List.mem_append] at he
    rcases he with he | he
    · exact mem_treeTrace pr entryIdx exitIdx h e he
    · exact mem_listTrace pr entryIdx exitIdx tl e he

end

mutual

/-- Counting: when exactly one registered rule is named like `R` (namely `R`
itself, with a non-nil on-enter callback), the walk of any tree performs
exactly one enter invocation of `R` per node whose type is `R`'s declared
node type. -/
theorem treeTrace_count (pr : ParseResult) (entryIdx exitIdx : String → List Rule)
    (R : Rule) (hR : R.OnEnter.isSome)
    (hb : ∀ typ, (entryIdx typ).filter (fun r => decide (r.data.name = R.data.name))
            = if typ = R.NodeType then [R] else []) :
    ∀ t : TSNode,
      ((treeTrace pr entryIdx exitIdx t).filter
          (fun e => decide (e.phase = Phase.enter ∧ e.ruleName = R.data.name))).length
        = countNodesOfType R.NodeType t := by
  intro t
  match t with
  | .mk typ children =>
    obtain ⟨visitFn, hf⟩ := Option.isSome_iff_exists.mp hR
    simp only [treeTrace, List.filter_append, List.length_append,
      enterEvents_filter_name, hb typ, leaveEvents_filter_enter,
      listTrace_count pr entryIdx exitIdx R hR hb children, countNodesOfType]
    by_cases ht : typ = R.NodeType <;> simp [ht, enterEvents, hf]

/-- List version of `treeTrace_count`. -/
theorem listTrace_count (pr : ParseResult) (entryIdx exitIdx : String → List Rule)
    (R : Rule) (hR : R.OnEnter.isSome)
    (hb : ∀ typ, (entryIdx typ).filter (fun r => decide (r.data.name = R.data.name))
            = if typ = R.NodeType then [R] else []) :
    ∀ l : TSNodeList,
      ((listTrace pr entryIdx exitIdx l).filter
          (fun e => decide (e.phase = Phase.enter ∧ e.ruleName = R.data.name))).length
        = countNodesOfTypeList R.NodeType l := by
  intro l
  match l with
  | .nil => simp [listTrace, countNodesOfTypeList]
  | .cons h tl =>
    simp only [listTrace, List.filter_append, List.length_append,
      treeTrace_count pr entryIdx exitIdx R hR hb h,
      listTrace_count pr entryIdx exitIdx R hR hb tl, countNodesOfTypeList]

end

/-! ## The claims -/

/-- **C2**: `NewAnalyzer` indexes every given rule with a non-nil on-enter
callback into the entry bucket keyed by the rule's declared node type, and
symmetrically for on-exit callbacks and the exit index, each bucket holding
exactly the matching rules in registration order (the order-preserving
`filter` of the registration list); a rule with both callbacks is in both
indices independently, and `AddRule` performs exactly this indexing
incrementally: it appends the rule to the entry bucket of its node type
exactly when its on-enter callback is non-nil, leaving every other bucket
unchanged, and symmetrically for the exit index. -/
theorem claim2_rule_indexing :
    (∀ (pr : ParseResult) (rules : List Rule) (typ : String),
        (NewAnalyzer pr rules).entryRulesForNode typ = rules.filter (entryPred typ)
          ∧ (NewAnalyzer pr rules).exitRulesForNode typ = rules.filter (exitPred typ))
    ∧ (∀ (ana : Analyzer) (r : Rule) (typ : String),
        ((ana.AddRule r).entryRulesForNode typ
            = if r.OnEnter.isSome ∧ typ = r.NodeType
              then ana.entryRulesForNode typ ++ [r] else ana.entryRulesForNode typ)
          ∧ ((ana.AddRule r).exitRulesForNode typ
            = if r.OnLeave.isSome ∧ typ = r.NodeType
              then ana.exitRulesForNode typ ++ [r] else ana.exitRulesForNode typ)) :=
  ⟨fun pr rules typ => ⟨NewAnalyzer_entryRules pr rules typ, NewAnalyzer_exitRules pr rules typ⟩,
   fun ana r typ => ⟨AddRule_entryRules ana r typ, AddRule_exitRules ana r typ⟩⟩

/-- **C3**: `Report` unconditionally appends the issue to the issue list
(no deduplication, rate limiting or sorting, and the existing prefix is
untouched, so no issue is removed or mutated), and `Analyze()` returns the
previously raised issues followed by every issue reported during the walk,
in exactly the order the `Report` calls happened (trace order, each
invocation's reports in their own order). -/
theorem claim3_report_order :
    (∀ (ana : Analyzer) (issue : Issue),
        (ana.Report issue).issuesRaised = ana.issuesRaised ++ [issue])
    ∧ (∀ (ana : Analyzer) (issue : Issue),
        (ana.Report issue).issuesRaised.take ana.issuesRaised.length = ana.issuesRaised)
    ∧ (∀ ana : Analyzer,
        ana.Analyze = ana.issuesRaised ++ reportedIssues ana.analyzeTrace) :=
  ⟨fun _ _ => rfl, fun _ _ => List.take_left _ _, fun ana => Analyze_spec ana⟩

/-- **C4**: language resolution is a pure function of the file extension
and agrees everywhere with the spec's fixed mapping {.py→Python,
.js→JavaScript, .jsx→JavaScript, .ts→TypeScript, .tsx→TypeScript+JSX};
every other extension yields Unknown, and the grammar for Unknown is
absent. -/
theorem claim4_language_resolution :
    (∀ path : String, LanguageFromFilePath path = specResolveLanguage (filepathExt path))
    ∧ (∀ path : String,
        filepathExt path ∉ [".py", ".js", ".jsx", ".ts", ".tsx"]
          → LanguageFromFilePath path = LangUnknown)
    ∧ LangUnknown.Grammar = none := by
  refine ⟨fun path => rfl, fun path h => ?_, rfl⟩
  simp only [List.mem_cons, List.not_mem_nil, or_false, not_or] at h
  obtain ⟨h1, h2, h3, h4, h5⟩ := h
  simp [LanguageFromFilePath, h1, h2, h3, h4, h5]

/-- **C5**: TypeScript and TypeScript+JSX resolve to distinct grammar
handles, while JavaScript shares its grammar handle with the JSX-capable
TypeScript+JSX variant. -/
theorem claim5_grammar_handles :
    LangTs.Grammar ≠ LangTsx.Grammar ∧ LangJs.Grammar = LangTsx.Grammar := by
  decide

/-- **C8**: analysis is deterministic: two separately constructed Analyzers
over the same ParseResult and the same rule list return identical issue
lists from `Analyze()`.  (The embedding is deterministic by construction;
in the source the only nondeterminism candidate, Go map iteration order,
never arises because dispatch only performs per-key lookups on the rule
indices and never iterates them.  Rules are modelled as stateless, the
spec's §5 precondition.) -/
theorem claim8_deterministic (pr : ParseResult) (rules : List Rule)
    (a₁ a₂ : Analyzer) (h₁ : a₁ = NewAnalyzer pr rules) (h₂ : a₂ = NewAnalyzer pr rules) :
    a₁.Analyze = a₂.Analyze := by
  rw [h₁, h₂]

/-- **C10**: in any Analyzer built by `NewAnalyzer` (and under any further
`AddRule`), every rule in an entry bucket has a non-nil on-enter callback
and every rule in an exit bucket has a non-nil on-exit callback — the
invariant is established by `NewAnalyzer`, preserved by `AddRule`, and
under it dispatch invokes a callback for every bucket rule, so the nil
guard in `OnEnterNode`/`OnLeaveNode` never skips (its `nil` branch is
unreachable and no nil function pointer is ever dereferenced). -/
theorem claim10_no_nil_callbacks :
    (∀ (pr : ParseResult) (rules : List Rule) (typ : String) (r : Rule),
        r ∈ (NewAnalyzer pr rules).entryRulesForNode typ → r.OnEnter.isSome)
    ∧ (∀ (pr : ParseResult) (rules : List Rule) (typ : String) (r : Rule),
        r ∈ (NewAnalyzer pr rules).exitRulesForNode typ → r.OnLeave.isSome)
    ∧ (∀ (ana : Analyzer) (r' : Rule),
        (∀ (typ : String) (r : Rule), r ∈ ana.entryRulesForNode typ → r.OnEnter.isSome) →
        ∀ (typ : String) (r : Rule),
          r ∈ (ana.AddRule r').entryRulesForNode typ → r.OnEnter.isSome)
    ∧ (∀ (ana : Analyzer) (r' : Rule),
        (∀ (typ : String) (r : Rule), r ∈ ana.exitRulesForNode typ → r.OnLeave.isSome) →
        ∀ (typ : String) (r : Rule),
          r ∈ (ana.AddRule r').exitRulesForNode typ → r.OnLeave.isSome)
    ∧ (∀ (a : Analyzer) (n : TSNode),
        (∀ r ∈ a.entryRulesForNode n.typ, r.OnEnter.isSome) →
        ((a.OnEnterNode n).2.1).length = (a.entryRulesForNode n.typ).length)
    ∧ (∀ (a : Analyzer) (n : TSNode),
        (∀ r ∈ a.exitRulesForNode n.typ, r.OnLeave.isSome) →
        ((a.OnLeaveNode n).2).length = (a.exitRulesForNode n.typ).length) := by
  refine ⟨?_, ?_, ?_, ?_, ?_, ?_⟩
  · intro pr rules typ r hmem
    rw [NewAnalyzer_entryRules] at hmem
    have := (List.mem_filter.mp hmem).2
    simp [entryPred] at this
    exact this.1
  · intro pr rules typ r hmem
    rw [NewAnalyzer_exitRules] at hmem
    have := (List.mem_filter.mp hmem).2
    simp [exitPred] at this
    exact this.1
  · intro ana r' hinv typ r hmem
    rw [AddRule_entryRules] at hmem
    by_cases h : r'.OnEnter.isSome ∧ typ = r'.NodeType
    · rw [if_pos h] at hmem
      rcases List.mem_append.mp hmem with hold | hnew
      · exact hinv typ r hold
      · rw [List.mem_singleton.mp hnew]; exact h.1
    · rw [if_neg h] at hmem
      exact hinv typ r hmem
  · intro ana r' hinv typ r hmem
    rw [AddRule_exitRules] at hmem
    by_cases h : r'.OnLeave.isSome ∧ typ = r'.NodeType
    · rw [if_pos h] at hmem
      rcases List.mem_append.mp hmem with hold | hnew
      · exact hinv typ r hold
      · rw [List.mem_singleton.mp hnew]; exact h.1
    · rw [if_neg h] at hmem
      exact hinv typ r hmem
  · intro a n h
    rw [OnEnterNode_spec]
    exact enterEvents_length a.ParseResult n _ h
  · intro a n h
    rw [OnLeaveNode_spec]
    exact leaveEvents_length a.ParseResult n _ h

/-- **C1**: on entering a node the Analyzer looks up the entry bucket for
the node's exact type string and invokes every rule's on-enter callback in
registration order (the bucket's events, in bucket order, with the rule,
analyzer state and node as arguments); the on-enter visitor always returns
`true`; and for a rule `R` (uniquely named among the registered rules) with
an on-enter callback, the walk of the whole tree invokes `R`'s on-enter
callback exactly once per node whose type is `R`'s declared node type and
never on a node of any other type. -/
theorem claim1_enter_dispatch (pr : ParseResult) (rules : List Rule) (R : Rule)
    (hname : rules.filter (fun r => decide (r.data.name = R.data.name)) = [R])
    (hR : R.OnEnter.isSome) :
    (∀ (a : Analyzer) (n : TSNode), (a.OnEnterNode n).2.2 = true)
    ∧ (∀ (a : Analyzer) (n : TSNode),
        (a.OnEnterNode n).2.1
          = enterEvents a.ParseResult (a.entryRulesForNode n.typ) n)
    ∧ ((NewAnalyzer pr rules).analyzeTrace.filter
          (fun e => decide (e.phase = Phase.enter ∧ e.ruleName = R.data.name))).length
        = countNodesOfType R.NodeType pr.Ast
    ∧ ∀ e ∈ (NewAnalyzer pr rules).analyzeTrace,
        e.phase = Phase.enter → e.ruleName = R.data.name → e.node.typ = R.NodeType := by
  have hb : ∀ typ, ((NewAnalyzer pr rules).entryRulesForNode typ).filter
      (fun r => decide (r.data.name = R.data.name)) = if typ = R.NodeType then [R] else [] := by
    intro typ
    rw [NewAnalyzer_entryRules]
    exact bucket_filter_name rules R hname hR typ
  refine ⟨fun a n => by rw [OnEnterNode_spec], fun a n => by rw [OnEnterNode_spec], ?_, ?_⟩
  · rw [analyzeTrace_spec,
      treeTrace_count (NewAnalyzer pr rules).ParseResult _ _ R hR hb,
      NewAnalyzer_ParseResult]
  · intro e he hp hn
    rw [analyzeTrace_spec] at he
    rcases mem_treeTrace _ _ _ _ e he with ⟨-, r, hrmem, -, hname'⟩ | ⟨hp', -⟩
    · have hmem : r ∈ ((NewAnalyzer pr rules).entryRulesForNode e.node.typ).filter
          (fun r' => decide (r'.data.name = R.data.name)) :=
        List.mem_filter.mpr ⟨hrmem, by simp [← hname', hn]⟩
      rw [hb e.node.typ] at hmem
      by_cases ht : e.node.typ = R.NodeType
      · exact ht
      · rw [if_neg ht] at hmem
        exact absurd hmem (List.not_mem_nil r)
    · rw [hp] at hp'
      exact absurd hp' (by simp)

/-- **C9**: a rule with neither callback is inert: `AddRule` leaves both
indices entirely unchanged (it is appended only to the `rules` list), the
rule is in no bucket of an Analyzer built over it, no invocation in any
traversal carries its (unique) name, and adding it to the registration list
does not change the issue list `Analyze()` returns. -/
theorem claim9_inert_rule (r : Rule) (hE : r.onEnter = none) (hL : r.onLeave = none) :
    (∀ ana : Analyzer,
        (ana.AddRule r).entryRulesForNode = ana.entryRulesForNode
          ∧ (ana.AddRule r).exitRulesForNode = ana.exitRulesForNode)
    ∧ (∀ (pr : ParseResult) (rules : List Rule) (typ : String),
        r ∉ (NewAnalyzer pr (rules ++ [r])).entryRulesForNode typ
          ∧ r ∉ (NewAnalyzer pr (rules ++ [r])).exitRulesForNode typ)
    ∧ (∀ (pr : ParseResult) (rules : List Rule),
        (∀ r' ∈ rules, r'.data.name ≠ r.data.name) →
        ∀ e ∈ (NewAnalyzer pr (rules ++ [r])).analyzeTrace, e.ruleName ≠ r.data.name)
    ∧ (∀ (pr : ParseResult) (rules : List Rule),
        (NewAnalyzer pr (rules ++ [r])).Analyze = (NewAnalyzer pr rules).Analyze) := by
  have hEnt : r.OnEnter = none := hE
  have hLv : r.OnLeave = none := hL
  have hfilterE : ∀ typ, entryPred typ r = false := by
    intro typ; simp [entryPred, hEnt]
  have hfilterL : ∀ typ, exitPred typ r = false := by
    intro typ; simp [exitPred, hLv]
  have hEntEq : ∀ (pr : ParseResult) (rules : List Rule) (typ : String),
      (NewAnalyzer pr (rules ++ [r])).entryRulesForNode typ
        = (NewAnalyzer pr rules).entryRulesForNode typ := by
    intro pr rules typ
    rw [NewAnalyzer_entryRules, NewAnalyzer_entryRules, List.filter_append]
    simp [List.filter_cons, hfilterE typ]
  have hExitEq : ∀ (pr : ParseResult) (rules : List Rule) (typ : String),
      (NewAnalyzer pr (rules ++ [r])).exitRulesForNode typ
        = (NewAnalyzer pr rules).exitRulesForNode typ := by
    intro pr rules typ
    rw [NewAnalyzer_exitRules, NewAnalyzer_exitRules, List.filter_append]
    simp [List.filter_cons, hfilterL typ]
  refine ⟨?_, ?_, ?_, ?_⟩
  · intro ana
    constructor <;> simp [Analyzer.AddRule, Rule.OnEnter, Rule.OnLeave, hE, hL]
  · intro pr rules typ
    constructor
    · intro hmem
      rw [NewAnalyzer_entryRules] at hmem
      have := (List.mem_filter.mp hmem).2
      rw [hfilterE typ] at this
      exact absurd this (by simp)
    · intro hmem
      rw [NewAnalyzer_exitRules] at hmem
      have := (List.mem_filter.mp hmem).2
      rw [hfilterL typ] at this
      exact absurd this (by simp)
  · intro pr rules hnames e he
    rw [analyzeTrace_spec] at he
    rcases mem_treeTrace _ _ _ _ e he with ⟨-, r', hrmem, hsome, hname'⟩ | ⟨-, r', hrmem, hsome, hname'⟩
    · rw [NewAnalyzer_entryRules, List.filter_append] at hrmem
      rcases List.mem_append.mp hrmem with hl | hr'
      · intro hcontra
        exact hnames r' (List.mem_of_mem_filter hl) (by rw [← hname', hcontra])
      · have hpred := (List.mem_filter.mp hr').2
        have hr'' := List.mem_singleton.mp (List.mem_of_mem_filter hr')
        rw [hr'', hfilterE e.node.typ] at hpred
        exact absurd hpred (by simp)
    · rw [NewAnalyzer_exitRules, List.filter_append] at hrmem
      rcases List.mem_append.mp hrmem with hl | hr'
      · intro hcontra
        exact hnames r' (List.mem_of_mem_filter hl) (by rw [← hname', hcontra])
      · have hpred := (List.mem_filter.mp hr').2
        have hr'' := List.mem_singleton.mp (List.mem_of_mem_filter hr')
        rw [hr'', hfilterL e.node.typ] at hpred
        exact absurd hpred (by simp)
  · intro pr rules
    have hfE : (NewAnalyzer pr (rules ++ [r])).entryRulesForNode
        = (NewAnalyzer pr rules).entryRulesForNode := funext fun typ => hEntEq pr rules typ
    have hfL : (NewAnalyzer pr (rules ++ [r])).exitRulesForNode
        = (NewAnalyzer pr rules).exitRulesForNode := funext fun typ => hExitEq pr rules typ
    rw [Analyze_spec, Analyze_spec, NewAnalyzer_issuesRaised, NewAnalyzer_issuesRaised,
      analyzeTrace_spec, analyzeTrace_spec, hfE, hfL, NewAnalyzer_ParseResult,
      NewAnalyzer_ParseResult]

/-- **C6**: `ParseFile` first resolves language and grammar from the path
and fails with the Unsupported-Language error when no grammar exists — for
any behaviour of the file system, i.e. before and independent of any read;
otherwise, when the read fails it fails with the I/O error carrying the
read's error, and when the read succeeds it delegates to `Parse` with the
resolved language and grammar.  Failures are `.error`, so no ParseResult is
produced. -/
theorem claim6_parseFile
    (ParseCtx : List Nat → SitterGrammar → Except String TSNode)
    (MakeScopeTree : Language → TSNode → List Nat → Option ScopeTree)
    (filePath : String) :
    ((LanguageFromFilePath filePath).Grammar = none →
        ∀ ReadFile : String → Except String (List Nat),
          ParseFile ParseCtx MakeScopeTree ReadFile filePath
            = .error (.unsupportedFileType filePath))
    ∧ (∀ (ReadFile : String → Except String (List Nat)) (g : SitterGrammar),
        (LanguageFromFilePath filePath).Grammar = some g →
          (∀ e, ReadFile filePath = .error e →
              ParseFile ParseCtx MakeScopeTree ReadFile filePath
                = .error (.ioError e))
          ∧ (∀ src, ReadFile filePath = .ok src →
              ParseFile ParseCtx MakeScopeTree ReadFile filePath
                = Parse ParseCtx MakeScopeTree filePath src
                    (LanguageFromFilePath filePath) g)) := by
  refine ⟨fun h ReadFile => ?_, fun ReadFile g hg => ⟨fun e he => ?_, fun src hs => ?_⟩⟩
  · simp [ParseFile, h]
  · simp [ParseFile, hg, he]
  · simp [ParseFile, hg, hs]

/-- **C7**: `Parse` fails with a Parse error carrying the file path exactly
when the parsing engine fails on the source (returning no ParseResult),
and on engine success returns a ParseResult packaging the tree root, the
source bytes, the file path, the grammar handle, the language tag and the
scope tree obtained from the Scope Resolver. -/
theorem claim7_parse
    (ParseCtx : List Nat → SitterGrammar → Except String TSNode)
    (MakeScopeTree : Language → TSNode → List Nat → Option ScopeTree)
    (filePath : String) (source : List Nat) (language : Language)
    (grammar : SitterGrammar) :
    (∀ e, ParseCtx source grammar = .error e →
        Parse ParseCtx MakeScopeTree filePath source language grammar
          = .error (.parseFailed filePath))
    ∧ (∀ ast, ParseCtx source grammar = .ok ast →
        Parse ParseCtx MakeScopeTree filePath source language grammar
          = .ok { Ast := ast, Source := source, FilePath := filePath,
                  TsLanguage := grammar, Language := language,
                  ScopeTree := MakeScopeTree language ast source }) := by
  refine ⟨fun e he => ?_, fun ast hs => ?_⟩
  · simp [Parse, he]
  · simp [Parse, hs]

/-! ## Concrete inputs for the witnesses -/

/-- A concrete tree: 3 nodes of type `"x"` and 5 nodes of other types (the
shape of the spec's §8 dispatch example). -/
def sampleTree : TSNode :=
  .mk "program"
    (.cons (.mk "x" (.cons (.mk "y" .nil) (.cons (.mk "x" .nil) .nil)))
      (.cons (.mk "z" (.cons (.mk "x" .nil) .nil))
        (.cons (.mk "w" .nil) (.cons (.mk "v" .nil) .nil))))

/-- A trivial source range for concrete issues. -/
def sampleRange : SitterRange :=
  ⟨⟨0, 0⟩, ⟨0, 0⟩, 0, 0⟩

/-- A concrete ParseResult holding `sampleTree`. -/
def samplePR : ParseResult :=
  ⟨sampleTree, [], "file.ts", .typescript, LangTs, none⟩

/-- A concrete rule on node type `"x"` whose on-enter callback reports one
issue naming the node it saw. -/
def ruleX : Rule :=
  ⟨⟨"rule-x", "x"⟩, some (fun _ _ node => [⟨"found x", sampleRange, some node⟩]), none⟩

/-- A concrete rule with neither callback. -/
def inertRule : Rule :=
  ⟨⟨"inert", "x"⟩, none, none⟩

/-- One Analyzer instance over `samplePR`. -/
def anaA : Analyzer :=
  NewAnalyzer samplePR [ruleX]

/-- A second, separately constructed Analyzer over the same inputs. -/
def anaB : Analyzer :=
  NewAnalyzer samplePR [ruleX]

/-- A parsing engine that always succeeds with a trivial module node. -/
def okEngine : List Nat → SitterGrammar → Except String TSNode :=
  fun _ _ => .ok (.mk "module" .nil)

/-- A parsing engine that always fails. -/
def failEngine : List Nat → SitterGrammar → Except String TSNode :=
  fun _ _ => .error "syntax error"

/-- A scope resolver that reports scope support as absent. -/
def noScope : Language → TSNode → List Nat → Option ScopeTree :=
  fun _ _ _ => none

/-- A file system on which every read fails. -/
def emptyFs : String → Except String (List Nat) :=
  fun _ => .error "no such file"

/-! ## Witnesses -/

/-- Witness for C1 at `sampleTree` (3 `"x"` nodes among 8): `ruleX`'s
on-enter callback fires exactly 3 times. -/
theorem claim1_enter_dispatch_witness :
    ((NewAnalyzer samplePR [ruleX]).analyzeTrace.filter
        (fun e => decide (e.phase = Phase.enter ∧ e.ruleName = ruleX.data.name))).length
      = countNodesOfType ruleX.NodeType samplePR.Ast
    ∧ countNodesOfType ruleX.NodeType samplePR.Ast = 3 :=
  ⟨(claim1_enter_dispatch samplePR [ruleX] ruleX (by rfl) (by rfl)).2.2.1, by rfl⟩

/-- Witness for C4 at a path with an unmapped extension. -/
theorem claim4_language_resolution_witness :
    LanguageFromFilePath "a.txt" = LangUnknown ∧ filepathExt "a.txt" = ".txt" :=
  ⟨claim4_language_resolution.2.1 "a.txt" (by decide), by rfl⟩

/-- Witness for C6: an unknown extension fails as Unsupported-Language
(no read happens), and a `.py` path on a failing file system fails with
the I/O error. -/
theorem claim6_parseFile_witness :
    ParseFile okEngine noScope emptyFs "file.unknownext"
        = .error (.unsupportedFileType "file.unknownext")
    ∧ ParseFile okEngine noScope emptyFs "missing.py"
        = .error (.ioError "no such file") :=
  ⟨(claim6_parseFile okEngine noScope "file.unknownext").1 (by rfl) emptyFs,
   ((claim6_parseFile okEngine noScope "missing.py").2 emptyFs .python (by rfl)).1
      "no such file" (by rfl)⟩

/-- Witness for C7: a failing engine yields the Parse error with the path;
a succeeding engine yields the packaged ParseResult. -/
theorem claim7_parse_witness :
    Parse failEngine noScope "a.ts" [1] LangTs .typescript
        = .error (.parseFailed "a.ts")
    ∧ Parse okEngine noScope "a.ts" [1] LangTs .typescript
        = .ok { Ast := .mk "module" .nil, Source := [1], FilePath := "a.ts",
                TsLanguage := .typescript, Language := LangTs, ScopeTree := none } :=
  ⟨(claim7_parse failEngine noScope "a.ts" [1] LangTs .typescript).1 "syntax error" (by rfl),
   (claim7_parse okEngine noScope "a.ts" [1] LangTs .typescript).2 (.mk "module" .nil) (by rfl)⟩

/-- Witness for C8: the two separately constructed Analyzer instances
return the same issue list. -/
theorem claim8_deterministic_witness : anaA.Analyze = anaB.Analyze :=
  claim8_deterministic samplePR [ruleX] anaA anaB rfl rfl

/-- Witness for C9: appending the inert rule leaves the analysis result
unchanged. -/
theorem claim9_inert_rule_witness :
    (NewAnalyzer samplePR ([ruleX] ++ [inertRule])).Analyze
      = (NewAnalyzer samplePR [ruleX]).Analyze :=
  (claim9_inert_rule inertRule rfl rfl).2.2.2 samplePR [ruleX]

/-- Witness for C10 at a concrete `"x"` node: the dispatch produces exactly
one invocation per rule of the (one-element) entry bucket. -/
theorem claim10_no_nil_callbacks_witness :
    ((NewAnalyzer samplePR [ruleX]).OnEnterNode (.mk "x" .nil)).2.1.length
      = ((NewAnalyzer samplePR [ruleX]).entryRulesForNode (TSNode.mk "x" .nil).typ).length
    ∧ (NewAnalyzer samplePR [ruleX]).entryRulesForNode "x" = [ruleX] := by
  refine ⟨claim10_no_nil_callbacks.2.2.2.2.1 (NewAnalyzer samplePR [ruleX]) (.mk "x" .nil) ?_, rfl⟩
  intro r hr
  have hb : (NewAnalyzer samplePR [ruleX]).entryRulesForNode (TSNode.mk "x" .nil).typ
      = [ruleX] := rfl
  rw [hb] at hr
  rw [List.mem_singleton.mp hr]
  rfl

end One
